import Mathlib

/-!
# Verification of the MIDI effect-controller core

A shallow embedding of the runtime core of a small MIDI effect-controller
(source files `src/bin/modules/state.rs`, `src/bin/modules/midi.rs` and
`src/bin/modules/rotary_encoder.rs`).  Machine integers are modelled as
`Nat`/`Int` with explicit two's-complement wrapping wherever the Rust code
wraps or casts; fallible operations return `Option`; the stateful tasks are
modelled as explicit state-passing functions.
-/

namespace MidiCore

/-! ## Machine-integer helpers

`wrapI16` is the two's-complement reinterpretation of an integer in the
`i16` range `[-32768, 32767]`; it models Rust release-mode wrapping `i16`
arithmetic and `i16::wrapping_sub`.  `wrapI8` models the Rust cast
`delta as i8` (keep the low 8 bits, reinterpret signed).  `toU8` models the
cast `x as u8` on an `i16`.  `clampI`/`clampN` model `Ord::clamp`, which in
Rust is defined for `lo ≤ hi`.  `saturatingAddSigned` models
`u8::saturating_add_signed`. -/

def wrapI16 (x : Int) : Int := (x + 32768) % 65536 - 32768

def wrapI8 (x : Int) : Int := (x + 128) % 256 - 128

def toU8 (x : Int) : Nat := (x % 256).toNat

def clampI (x lo hi : Int) : Int := max lo (min x hi)

def clampN (x lo hi : Nat) : Nat := max lo (min x hi)

def saturatingAddSigned (v : Nat) (d : Int) : Nat :=
  (max 0 (min ((v : Int) + d) 255)).toNat

/-- Overflow predicate for the 16-bit signed intermediate sum
`attr.value as i16 + delta` in `State::adjust_selected` (state.rs line 89):
true when the mathematical sum leaves the `i16` range, i.e. when the Rust
addition would wrap (release) or panic (debug). -/
def i16AddOverflows (value : Nat) (delta : Int) : Bool :=
  decide ((value : Int) + delta < -32768) || decide (32767 < (value : Int) + delta)

/-! ## Parameter store (state.rs)

`Attribute` embeds the Rust struct `Attribute` (name, channel, control,
min, max, value, all `u8`-like fields as `Nat`).  The display-only function
field `to_human_readable` is irrelevant to state evolution and is omitted.
`State` embeds the Rust struct `State`; the fixed array `[Attribute; 2]` is
modelled as a list (the initial state below has exactly two entries, as in
the source). -/

structure Attribute where
  name : String
  channel : Nat
  control : Nat
  min : Nat
  max : Nat
  value : Nat
deriving DecidableEq

structure State where
  attributes : List Attribute
  selected_option : Nat
deriving DecidableEq

/-- The static initial `STATE` of state.rs (lines 14-36): two attributes,
Delay and Feedback, both with bounds `[0, 100]`, initial values 15 and 50,
selection 0. -/
def initialState : State :=
  { attributes :=
      [ { name := "Delay", channel := 1, control := 20,
          min := 0, max := 100, value := 15 },
        { name := "Feedback", channel := 1, control := 21,
          min := 0, max := 100, value := 50 } ],
    selected_option := 0 }

/-- `Value7::from(u8)`: a MIDI data byte is 7 bits; values are reduced to
the range `0..127`. -/
def value7ofU8 (v : Nat) : Nat := v % 128

/-- An outbound `MidiMessage::ControlChange(channel, control, value)`
packet as built in `State::adjust_selected`. -/
structure OutboundEvent where
  channel : Nat
  control : Nat
  value : Nat
deriving DecidableEq

/-- The new value computed in `State::adjust_selected` (state.rs line 88-89):
`(attr.value as i16 + delta).clamp(attr.min as i16, attr.max as i16) as u8`,
with the `i16` addition modelled as wrapping. -/
def newValueOf (a : Attribute) (delta : Int) : Nat :=
  toU8 (clampI (wrapI16 ((a.value : Int) + delta)) (a.min : Int) (a.max : Int))

/-- `State::adjust_selected` (state.rs lines 86-99): look up the selected
attribute (`Option`); on `none` do nothing; otherwise write the clamped new
value back and build the outbound ControlChange event that the code hands to
`MIDI_QUEUE.try_send`.  The returned `Option OutboundEvent` is the event the
call attempts to push (`none` when no attribute is selected). -/
def adjust_selected (s : State) (delta : Int) : State × Option OutboundEvent :=
  match s.attributes[s.selected_option]? with
  | none => (s, none)
  | some attr =>
      let new_value := newValueOf attr delta
      ({ s with attributes :=
           s.attributes.set s.selected_option { attr with value := new_value } },
       some { channel := attr.channel, control := attr.control,
              value := value7ofU8 new_value })

/-- `State::next_option` (state.rs lines 101-106): advance the selection
cyclically; the body pushes nothing onto the MIDI queue, so the event
component is `none`. -/
def next_option (s : State) : State × Option OutboundEvent :=
  ({ s with selected_option := (s.selected_option + 1) % s.attributes.length },
   none)

/-- The state after a sequence of `adjust_selected` calls, one per delta. -/
def applyDeltas (s : State) (deltas : List Int) : State :=
  deltas.foldl (fun t d => (adjust_selected t d).1) s

/-- The state reached by iterating `next_option` n times. -/
def nextIter : Nat → State → State
  | 0, s => s
  | n + 1, s => nextIter n (next_option s).1

/-! ## Outbound queue (midi.rs)

`MIDI_QUEUE` is `Channel<_, MidiMessage, 16>`: a bounded FIFO of capacity
16.  `try_send` is non-blocking: it appends when there is room and reports
failure (which `adjust_selected` ignores with `.ok()`) when full. -/

def QUEUE_CAPACITY : Nat := 16

def try_send (q : List OutboundEvent) (e : OutboundEvent) :
    List OutboundEvent × Bool :=
  if q.length < QUEUE_CAPACITY then (q ++ [e], true) else (q, false)

/-- `adjust_selected` together with its queue interaction
(`MIDI_QUEUE.try_send(packet).ok()`): the state write always happens; the
event, when one is built, is pushed non-blockingly and dropped on a full
queue. -/
def adjust_selected_q (s : State) (q : List OutboundEvent) (delta : Int) :
    State × List OutboundEvent :=
  let r := adjust_selected s delta
  match r.2 with
  | some e => (r.1, (try_send q e).1)
  | none => (r.1, q)

/-! ## SysEx processing (midi.rs) -/

def SYSEX_BUFFER_SIZE : Nat := 64

/-- The identity-request constant of `process_sysex` (midi.rs line 153). -/
def IDENTITY_REQUEST : List Nat := [0xF0, 0x7E, 0x7F, 0x06, 0x01, 0xF7]

/-- The fixed identity reply built by `process_sysex` (midi.rs lines
156-171): header, manufacturer id, family code, family member code,
software revision level, end marker. -/
def identityReply : List Nat :=
  [0xF0, 0x7E, 0x7F, 0x06, 0x02,
   0x01,
   0x02, 0x03,
   0x04, 0x05,
   0x00, 0x00, 0x00, 0x00,
   0xF7]

/-- `process_sysex` (midi.rs lines 149-177): reply to the exact identity
request with the fixed identity payload, to anything else with `None`. -/
def process_sysex (request : List Nat) : Option (List Nat) :=
  if request = IDENTITY_REQUEST then some identityReply else none

/-! ## Inbound SysEx reassembly (the packet loop of `usb_task`, midi.rs
lines 52-117)

A received USB-MIDI packet is seen by the loop through exactly four
features: whether it is a SysEx packet, whether it is a SysEx start,
whether it is a SysEx end, and its payload bytes; `Packet` records those.
`processPacket` is the body of the `for packet in ...` loop restricted to
its effect on the reassembly buffer and the produced reply:
  - a non-SysEx packet is logged and changes nothing;
  - a SysEx start clears the buffer first;
  - `extend_from_slice` on the heapless buffer is all-or-nothing: it fails
    (without touching the buffer) when the combined length would exceed
    `SYSEX_BUFFER_SIZE`, upon which the code logs the overflow and breaks
    out of the packet loop;
  - on a SysEx end packet the buffered message goes to `process_sysex`.
`processPackets` folds this over the packets of one transfer, stopping at
the `break`; `TransferResult.overflowed` records whether the overflow
branch was taken (the `info!` log plus `break`). -/

structure Packet where
  sysex : Bool
  start : Bool
  ends : Bool
  payload : List Nat
deriving DecidableEq

structure TransferResult where
  buffer : List Nat
  replies : List (List Nat)
  overflowed : Bool
deriving DecidableEq

def processPacket (buf : List Nat) (p : Packet) :
    List Nat × Option (List Nat) × Bool :=
  if p.sysex = false then (buf, none, true)
  else
    let buf1 := if p.start then [] else buf
    if SYSEX_BUFFER_SIZE < buf1.length + p.payload.length then
      (buf1, none, false)
    else
      let buf2 := buf1 ++ p.payload
      if p.ends then (buf2, process_sysex buf2, true)
      else (buf2, none, true)

def processPackets : List Nat → List Packet → TransferResult
  | buf, [] => ⟨buf, [], false⟩
  | buf, p :: ps =>
      let r := processPacket buf p
      if r.2.2 then
        let rest := processPackets r.1 ps
        ⟨rest.buffer, r.2.1.toList ++ rest.replies, rest.overflowed⟩
      else
        ⟨r.1, r.2.1.toList, true⟩

/-- The packets a host produces when it splits one SysEx message into the
given consecutive payload chunks: every packet is a SysEx packet, the first
is the SysEx start, the last is the SysEx end.  The boolean argument says
whether the first chunk of the remaining list opens the message. -/
def mkPackets : List (List Nat) → Bool → List Packet
  | [], _ => []
  | [c], first => [⟨true, first, true, c⟩]
  | c :: cs, first => ⟨true, first, false, c⟩ :: mkPackets cs false

/-- A transfer that feeds 66 payload bytes without an end marker: a start
packet and 21 continuation packets of three bytes each.  The 22nd append
finds the buffer at 63 bytes and overflows the 64-byte capacity. -/
def overflowPackets : List Packet :=
  ⟨true, true, false, [0xF0, 0, 0]⟩ ::
    List.replicate 21 ⟨true, false, false, [0, 0, 0]⟩

/-! ## Outbound draining (midi.rs lines 122-142)

`drainQueue` models `while let Ok(message) = MIDI_QUEUE.try_receive()`
with `send` abstracting `midi_class.send_packet` on the rendered event:
`Ok` delivers and continues; `Err(WouldBlock)` breaks out of the loop with
the popped event dropped (the requeue line is commented out in the
source); any other error is logged and the loop continues with the next
event.  The result is (delivered events, events left on the queue). -/

inductive SendResult where
  | ok
  | wouldBlock
  | otherError
deriving DecidableEq

def drainQueue (send : OutboundEvent → SendResult) :
    List OutboundEvent → List OutboundEvent × List OutboundEvent
  | [] => ([], [])
  | e :: rest =>
      match send e with
      | .ok =>
          let r := drainQueue send rest
          (e :: r.1, r.2)
      | .wouldBlock => ([], rest)
      | .otherError => drainQueue send rest

/-! ## Rotary encoder (rotary_encoder.rs) -/

/-- `saturating_add_custom_range` (rotary_encoder.rs lines 87-90):
`value.saturating_add_signed(delta as i8)` followed by `clamp(min, max)`.
Note the cast `delta as i8`, which truncates the 16-bit delta to its low
8 bits. -/
def saturating_add_custom_range (value : Nat) (delta : Int) (lo hi : Nat) : Nat :=
  clampN (saturatingAddSigned value (wrapI8 delta)) lo hi

structure EncoderState where
  count : Nat
  last_value : Int
deriving DecidableEq

structure EncoderOutput where
  delta : Option Int
  count : Option Nat
deriving DecidableEq

/-- One poll-step of the loop body of `rotary_encoder_task`
(rotary_encoder.rs lines 64-84) on the freshly read counter value:
unchanged counter publishes nothing; otherwise the wrapping difference is
published unconditionally, the bounded cumulative count is recomputed with
`saturating_add_custom_range count delta 0 100` and published only when it
changed. -/
def encoderStep (st : EncoderState) (current_value : Int) :
    EncoderState × EncoderOutput :=
  if current_value = st.last_value then (st, ⟨none, none⟩)
  else
    let delta := wrapI16 (current_value - st.last_value)
    let new_count := saturating_add_custom_range st.count delta 0 100
    if new_count = st.count then
      ({ count := st.count, last_value := current_value }, ⟨some delta, none⟩)
    else
      ({ count := new_count, last_value := current_value },
       ⟨some delta, some new_count⟩)

/-! ## Invariants -/

/-- The per-attribute invariant of the data model: well-ordered `u8` bounds
and a value inside them. -/
def AttrInv (a : Attribute) : Prop :=
  a.min ≤ a.max ∧ a.min ≤ a.value ∧ a.value ≤ a.max ∧ a.max ≤ 255

instance (a : Attribute) : Decidable (AttrInv a) := by
  unfold AttrInv; infer_instance

/-- Every attribute of the state satisfies its invariant. -/
def Inv (s : State) : Prop := ∀ a ∈ s.attributes, AttrInv a

instance (s : State) : Decidable (Inv s) :=
  List.decidableBAll _ _

/-- Every attribute value sits within its bounds (the part of `Inv` that the
spec states as the adjustment invariant). -/
def BoundsOk (s : State) : Prop :=
  ∀ a ∈ s.attributes, a.min ≤ a.value ∧ a.value ≤ a.max

instance (s : State) : Decidable (BoundsOk s) :=
  List.decidableBAll _ _

/-! ## Helper lemmas -/

theorem clampI_mem (x lo hi : Int) (h : lo ≤ hi) :
    lo ≤ clampI x lo hi ∧ clampI x lo hi ≤ hi := by
  unfold clampI
  exact ⟨le_max_left _ _, max_le h (min_le_right _ _)⟩

theorem toU8_of_range (x : Int) (h0 : 0 ≤ x) (h1 : x ≤ 255) :
    (toU8 x : Int) = x := by
  unfold toU8
  rw [Int.emod_eq_of_lt h0 (by omega)]
  exact Int.toNat_of_nonneg h0

theorem newValueOf_mem (a : Attribute) (delta : Int) (h : AttrInv a) :
    a.min ≤ newValueOf a delta ∧ newValueOf a delta ≤ a.max := by
  obtain ⟨hmm, -, -, h255⟩ := h
  unfold newValueOf
  have hb := clampI_mem (wrapI16 ((a.value : Int) + delta)) a.min a.max
    (by exact_mod_cast hmm)
  have h0 : (0 : Int) ≤ clampI (wrapI16 ((a.value : Int) + delta)) a.min a.max :=
    le_trans (by positivity) hb.1
  have h1 : clampI (wrapI16 ((a.value : Int) + delta)) a.min a.max ≤ 255 :=
    le_trans hb.2 (by exact_mod_cast h255)
  have heq := toU8_of_range _ h0 h1
  constructor
  · exact_mod_cast heq ▸ hb.1
  · exact_mod_cast heq ▸ hb.2

theorem mem_of_getElem_some {l : List Attribute} {n : Nat} {a : Attribute}
    (h : l[n]? = some a) : a ∈ l := by
  obtain ⟨hlt, rfl⟩ := List.getElem?_eq_some.mp h
  exact List.getElem_mem hlt

theorem adjust_selected_preserves_Inv (s : State) (delta : Int) (hs : Inv s) :
    Inv (adjust_selected s delta).1 := by
  cases hget : s.attributes[s.selected_option]? with
  | none =>
      intro a ha
      simp only [adjust_selected, hget] at ha
      exact hs a ha
  | some attr =>
      intro a ha
      simp only [adjust_selected, hget] at ha
      rcases List.mem_or_eq_of_mem_set ha with h | h
      · exact hs a h
      · subst h
        have hai := hs attr (mem_of_getElem_some hget)
        have hb := newValueOf_mem attr delta hai
        exact ⟨hai.1, hb.1, hb.2, hai.2.2.2⟩

theorem applyDeltas_preserves_Inv (s : State) (deltas : List Int) (hs : Inv s) :
    Inv (applyDeltas s deltas) := by
  induction deltas generalizing s with
  | nil => exact hs
  | cons d ds ih =>
      have : applyDeltas s (d :: ds) = applyDeltas (adjust_selected s d).1 ds := rfl
      rw [this]
      exact ih _ (adjust_selected_preserves_Inv s d hs)

theorem nextIter_attributes (n : Nat) (s : State) :
    (nextIter n s).attributes = s.attributes := by
  induction n generalizing s with
  | zero => rfl
  | succ n ih =>
      have : nextIter (n + 1) s = nextIter n (next_option s).1 := rfl
      rw [this, ih]
      rfl

theorem nextIter_selected (n : Nat) (s : State)
    (hsel : s.selected_option < s.attributes.length) :
    (nextIter n s).selected_option =
      (s.selected_option + n) % s.attributes.length := by
  induction n generalizing s with
  | zero => simp [nextIter, Nat.mod_eq_of_lt hsel]
  | succ n ih =>
      have hlen : 0 < s.attributes.length := Nat.lt_of_le_of_lt (Nat.zero_le _) hsel
      have hstep : nextIter (n + 1) s = nextIter n (next_option s).1 := rfl
      have hsel2 : (next_option s).1.selected_option <
          (next_option s).1.attributes.length := by
        simp only [next_option]
        exact Nat.mod_lt _ hlen
      rw [hstep, ih _ hsel2]
      simp only [next_option]
      rw [Nat.mod_add_mod]
      ring_nf

/-! ## The claims -/

/-- C1: for every sequence of deltas, if every attribute initially satisfies
`min ≤ value ≤ max` (with `min ≤ max`), then after every `adjust_selected`
call every attribute (in particular the selected one) still satisfies
`min ≤ value ≤ max`, because the written value is the clamp of the adjusted
value into `[min, max]`. -/
theorem adjust_selected_bounds_invariant (s : State) (hs : Inv s)
    (deltas : List Int) (k : Nat) :
    BoundsOk (applyDeltas s (deltas.take k)) := by
  intro a ha
  have h := applyDeltas_preserves_Inv s (deltas.take k) hs a ha
  exact ⟨h.2.1, h.2.2.1⟩

theorem adjust_selected_bounds_invariant_witness :
    BoundsOk (applyDeltas initialState (List.take 2 [5, -300, 40000])) :=
  adjust_selected_bounds_invariant initialState (by decide) [5, -300, 40000] 2

/-- C2: `process_sysex` returns a reply exactly on the 6-byte identity
request `F0 7E 7F 06 01 F7`; the reply is the fixed 15-byte identity
payload `F0 7E 7F 06 02`, manufacturer id, family, model, revision, `F7`;
every other input produces no reply. -/
theorem process_sysex_identity :
    (∀ request : List Nat, (process_sysex request).isSome ↔
        request = [0xF0, 0x7E, 0x7F, 0x06, 0x01, 0xF7]) ∧
    process_sysex [0xF0, 0x7E, 0x7F, 0x06, 0x01, 0xF7] =
      some [0xF0, 0x7E, 0x7F, 0x06, 0x02, 0x01, 0x02, 0x03, 0x04, 0x05,
            0x00, 0x00, 0x00, 0x00, 0xF7] ∧
    (∀ request : List Nat,
      request ≠ [0xF0, 0x7E, 0x7F, 0x06, 0x01, 0xF7] →
        process_sysex request = none) := by
  refine ⟨?_, by decide, ?_⟩
  · intro request
    by_cases h : request = IDENTITY_REQUEST
    · simp [process_sysex, h, IDENTITY_REQUEST]
    · simp only [process_sysex, if_neg h, Option.isSome_none,
        Bool.false_eq_true, false_iff]
      simpa [IDENTITY_REQUEST] using h
  · intro request h
    have : request ≠ IDENTITY_REQUEST := by simpa [IDENTITY_REQUEST] using h
    simp [process_sysex, this]

/-- C8: `next_option` maps the selection to `(selected + 1) mod length`,
leaves the attributes unchanged and emits no MIDI event; iterating it
`length` times returns the selection to its starting index, and on the
initial two-attribute state one call moves the selection from 0 to 1 and a
second call back to 0. -/
theorem next_option_cyclic (s : State)
    (hsel : s.selected_option < s.attributes.length) :
    (next_option s).1.attributes = s.attributes ∧
    (next_option s).2 = none ∧
    (next_option s).1.selected_option =
      (s.selected_option + 1) % s.attributes.length ∧
    (nextIter s.attributes.length s).selected_option = s.selected_option ∧
    (nextIter 1 initialState).selected_option = 1 ∧
    (nextIter 2 initialState).selected_option = 0 := by
  refine ⟨rfl, rfl, rfl, ?_, by decide, by decide⟩
  rw [nextIter_selected _ _ hsel, Nat.add_mod_right]
  exact Nat.mod_eq_of_lt hsel

theorem next_option_cyclic_witness :
    (nextIter initialState.attributes.length initialState).selected_option =
      initialState.selected_option :=
  (next_option_cyclic initialState (by decide)).2.2.2.1

/-- C10: with a selected index at or beyond the attribute-list length,
`adjust_selected` is a total no-op: the attribute lookup yields `none`, so
the state is unchanged, no event is built and the queue is untouched. -/
theorem adjust_selected_out_of_range_noop (s : State) (delta : Int)
    (hout : s.attributes.length ≤ s.selected_option) :
    adjust_selected s delta = (s, none) ∧
    ∀ q : List OutboundEvent, adjust_selected_q s q delta = (s, q) := by
  have hget : s.attributes[s.selected_option]? = none :=
    List.getElem?_eq_none hout
  constructor
  · simp [adjust_selected, hget]
  · intro q
    simp [adjust_selected_q, adjust_selected, hget]

theorem adjust_selected_out_of_range_noop_witness :
    adjust_selected { initialState with selected_option := 5 } 7 =
      ({ initialState with selected_option := 5 }, none) :=
  (adjust_selected_out_of_range_noop { initialState with selected_option := 5 }
    7 (by decide)).1

/-- C5: with a valid selected index, `adjust_selected` always builds exactly
one outbound event carrying the selected attribute channel, control and
clamped new value — also when clamping leaves the value unchanged — and the
push is non-blocking: on a full queue the event is dropped, the queue is
unchanged, no error is raised and the value write still takes effect. -/
theorem adjust_selected_always_pushes (s : State) (delta : Int)
    (hsel : s.selected_option < s.attributes.length) :
    (adjust_selected s delta).2 =
      some { channel := (s.attributes.get ⟨s.selected_option, hsel⟩).channel,
             control := (s.attributes.get ⟨s.selected_option, hsel⟩).control,
             value := value7ofU8
               (newValueOf (s.attributes.get ⟨s.selected_option, hsel⟩) delta) } ∧
    (adjust_selected s delta).1.selected_option = s.selected_option ∧
    (adjust_selected s delta).1.attributes =
      s.attributes.set s.selected_option
        ({ s.attributes.get ⟨s.selected_option, hsel⟩ with
           value := newValueOf (s.attributes.get ⟨s.selected_option, hsel⟩) delta }) ∧
    (AttrInv (s.attributes.get ⟨s.selected_option, hsel⟩) →
      (s.attributes.get ⟨s.selected_option, hsel⟩).max ≤ 127 →
      (adjust_selected s delta).2 =
        some { channel := (s.attributes.get ⟨s.selected_option, hsel⟩).channel,
               control := (s.attributes.get ⟨s.selected_option, hsel⟩).control,
               value := newValueOf (s.attributes.get ⟨s.selected_option, hsel⟩) delta }) ∧
    ∀ q : List OutboundEvent, QUEUE_CAPACITY ≤ q.length →
      adjust_selected_q s q delta = ((adjust_selected s delta).1, q) := by
  have hget : s.attributes[s.selected_option]? =
      some (s.attributes.get ⟨s.selected_option, hsel⟩) := by
    rw [List.get_eq_getElem]
    exact List.getElem?_eq_getElem hsel
  refine ⟨?_, ?_, ?_, ?_, ?_⟩
  · simp [adjust_selected, hget]
  · simp [adjust_selected, hget]
  · simp [adjust_selected, hget]
  · intro hinv hmax
    have hb := newValueOf_mem (s.attributes.get ⟨s.selected_option, hsel⟩) delta hinv
    have hlt : newValueOf (s.attributes.get ⟨s.selected_option, hsel⟩) delta < 128 :=
      Nat.lt_of_le_of_lt (le_trans hb.2 hmax) (by omega)
    simp only [List.get_eq_getElem] at hlt
    simp [adjust_selected, hget, value7ofU8, Nat.mod_eq_of_lt hlt]
  · intro q hq
    have hfull : ¬ q.length < QUEUE_CAPACITY := Nat.not_lt.mpr hq
    simp [adjust_selected_q, adjust_selected, hget, try_send, hfull]

theorem adjust_selected_always_pushes_witness :
    adjust_selected_q initialState
      (List.replicate 16 { channel := 0, control := 0, value := 0 }) 0 =
      ((adjust_selected initialState 0).1,
       List.replicate 16 { channel := 0, control := 0, value := 0 }) :=
  (adjust_selected_always_pushes initialState 0 (by decide)).2.2.2.2
    (List.replicate 16 { channel := 0, control := 0, value := 0 }) (by decide)

/-- C7: while draining the outbound queue, a popped event whose transmission
reports WouldBlock stops the drain for this iteration and is dropped, with
the rest of the queue left in place (never requeued: what remains is always
a suffix of the original queue); any other transmit error is logged and the
next queued event is attempted in the same iteration; a successful send
delivers the event and continues. -/
theorem drain_queue_error_policy (send : OutboundEvent → SendResult)
    (e : OutboundEvent) (rest : List OutboundEvent) :
    (send e = SendResult.wouldBlock →
      drainQueue send (e :: rest) = ([], rest)) ∧
    (send e = SendResult.otherError →
      drainQueue send (e :: rest) = drainQueue send rest) ∧
    (send e = SendResult.ok →
      drainQueue send (e :: rest) =
        (e :: (drainQueue send rest).1, (drainQueue send rest).2)) ∧
    ∀ q : List OutboundEvent, (drainQueue send q).2 <:+ q := by
  refine ⟨?_, ?_, ?_, ?_⟩
  · intro h; simp [drainQueue, h]
  · intro h; simp [drainQueue, h]
  · intro h; simp [drainQueue, h]
  · intro q
    induction q with
    | nil => exact List.nil_suffix
    | cons a as ih =>
        cases hsend : send a with
        | ok =>
            simp only [drainQueue, hsend]
            exact ih.trans (List.suffix_cons a as)
        | wouldBlock =>
            simp only [drainQueue, hsend]
            exact List.suffix_cons a as
        | otherError =>
            simp only [drainQueue, hsend]
            exact ih.trans (List.suffix_cons a as)

/-- C3 counterexample: at previous count 0, previous raw value 0 and current
raw value 200, the delta 200 is published, but the new cumulative count is
0 — not `clamp(0 + 200, 0, 100) = 100` as the claim states — because the
code truncates the delta to a signed 8-bit value (here -56) before the
saturating addition; consequently no count is published either, while the
claim predicts the changed count 100 would be. -/
theorem encoder_count_clamp_counterexample :
    (encoderStep ⟨0, 0⟩ 200).2.delta = some 200 ∧
    (encoderStep ⟨0, 0⟩ 200).1.count = 0 ∧
    (encoderStep ⟨0, 0⟩ 200).2.count = none ∧
    clampN (0 + 200) 0 100 = 100 := by decide

/-- C3 (amended): on a poll step with an unchanged raw count nothing is
published; otherwise the wrapping signed delta is published unconditionally
and the new cumulative count is the previous count saturating-added with
the delta truncated to signed 8 bits, clamped to `[0, 100]`, published only
when it changed; for deltas within `[-128, 127]` this coincides with
`clamp(count + delta, 0, 100)`. -/
theorem encoder_step_behavior (st : EncoderState) (current : Int) :
    (current = st.last_value → encoderStep st current = (st, ⟨none, none⟩)) ∧
    (current ≠ st.last_value →
      (encoderStep st current).2.delta =
        some (wrapI16 (current - st.last_value)) ∧
      (encoderStep st current).1.last_value = current ∧
      (encoderStep st current).1.count =
        saturating_add_custom_range st.count (wrapI16 (current - st.last_value)) 0 100 ∧
      (encoderStep st current).2.count =
        (if saturating_add_custom_range st.count
              (wrapI16 (current - st.last_value)) 0 100 = st.count
         then none
         else some (saturating_add_custom_range st.count
              (wrapI16 (current - st.last_value)) 0 100))) ∧
    ∀ (c : Nat) (d : Int), -128 ≤ d → d ≤ 127 →
      (saturating_add_custom_range c d 0 100 : Int) = clampI ((c : Int) + d) 0 100 := by
  refine ⟨?_, ?_, ?_⟩
  · intro h; simp [encoderStep, h]
  · intro h
    refine ⟨?_, ?_, ?_, ?_⟩ <;>
      · simp only [encoderStep, if_neg h]
        split <;> simp_all
  · intro c d hd1 hd2
    have h8 : wrapI8 d = d := by unfold wrapI8; omega
    simp only [saturating_add_custom_range, saturatingAddSigned, clampN, clampI, h8]
    push_cast
    omega

/-- C9 counterexample: at value 100 (a valid u8, inside the bounds 0-100 of
the initial attributes) and delta 32767 (a valid i16), the 16-bit signed
intermediate sum of `adjust_selected` is 32867, outside the i16 range, so
the addition overflows: the wrapped result is -32669, not the mathematical
sum. -/
theorem i16_intermediate_overflow_counterexample :
    i16AddOverflows 100 32767 = true ∧
    (100 : Int) + 32767 = 32867 ∧
    wrapI16 ((100 : Int) + 32767) = -32669 := by decide

/-- C9 (amended): the 16-bit intermediate of `adjust_selected` never
underflows for a u8 value and an i16 delta, and does not overflow whenever
`value + delta ≤ 32767`; for larger sums — which the raw full-range i16
delta fed to `adjust_selected` can produce — the i16 addition wraps.  The
encoder arithmetic is genuinely saturating: `u8::saturating_add_signed`
stays within `[0, 255]` and `saturating_add_custom_range _ _ 0 100` stays
within `[0, 100]`, for all inputs. -/
theorem adjust_arith_overflow_bounds (value : Nat) (delta : Int)
    (hv : value ≤ 255) (hd1 : -32768 ≤ delta) (hd2 : delta ≤ 32767) :
    (-32768 : Int) ≤ (value : Int) + delta ∧
    ((value : Int) + delta ≤ 32767 →
      i16AddOverflows value delta = false ∧
      wrapI16 ((value : Int) + delta) = (value : Int) + delta) ∧
    (∀ (v : Nat) (d : Int), saturatingAddSigned v (wrapI8 d) ≤ 255) ∧
    ∀ (v : Nat) (d : Int), saturating_add_custom_range v d 0 100 ≤ 100 := by
  refine ⟨by omega, ?_, ?_, ?_⟩
  · intro hsum
    constructor
    · simp only [i16AddOverflows, Bool.or_eq_false_iff,
        decide_eq_false_iff_not, not_lt]
      omega
    · unfold wrapI16; omega
  · intro v d
    simp only [saturatingAddSigned]
    omega
  · intro v d
    simp only [saturating_add_custom_range, saturatingAddSigned, clampN]
    omega

theorem adjust_arith_overflow_bounds_witness :
    i16AddOverflows 100 5 = false ∧
    wrapI16 ((100 : Int) + 5) = (100 : Int) + 5 :=
  (adjust_arith_overflow_bounds 100 5 (by decide) (by decide) (by decide)).2.1
    (by decide)

theorem processPackets_continuations (chunks : List (List Nat)) (b : List Nat)
    (hne : chunks ≠ [])
    (hlen : b.length + chunks.flatten.length ≤ SYSEX_BUFFER_SIZE) :
    processPackets b (mkPackets chunks false) =
      ⟨b ++ chunks.flatten,
       (process_sysex (b ++ chunks.flatten)).toList, false⟩ := by
  induction chunks generalizing b with
  | nil => exact absurd rfl hne
  | cons c cs ih =>
      cases cs with
      | nil =>
          have hov : ¬ (SYSEX_BUFFER_SIZE < b.length + c.length) := by
            simp only [List.flatten_cons, List.flatten_nil, List.append_nil,
              List.length_append] at hlen
            omega
          simp [mkPackets, processPackets, processPacket, hov]
      | cons c2 cs2 =>
          have hflat : ((c :: c2 :: cs2).flatten : List Nat) =
              c ++ (c2 :: cs2).flatten := List.flatten_cons
          have hov : ¬ (SYSEX_BUFFER_SIZE < b.length + c.length) := by
            rw [hflat] at hlen
            simp only [List.length_append] at hlen
            omega
          have hlen2 : (b ++ c).length + ((c2 :: cs2).flatten).length ≤
              SYSEX_BUFFER_SIZE := by
            rw [hflat] at hlen
            simp only [List.length_append] at hlen ⊢
            omega
          have ih2 := ih (b ++ c) (List.cons_ne_nil c2 cs2) hlen2
          simp only [mkPackets, processPackets, processPacket,
            Bool.false_eq_true, if_false, if_neg hov, if_false, List.length_nil]
          simp only [mkPackets] at ih2
          rw [hflat]
          simp [ih2, List.append_assoc]

/-- C4: however the 6-byte identity request is split into consecutive
nonempty SysEx packet payloads (one packet, two, or N), the reassembly
loop of `usb_task` produces exactly one reply, and it is byte-for-byte the
fixed identity reply, independent of the split points. -/
theorem sysex_reassembly_split_invariant (chunks : List (List Nat))
    (hne : chunks ≠ [])
    (hinner : ∀ c ∈ chunks, c ≠ [])
    (hcat : chunks.flatten = [0xF0, 0x7E, 0x7F, 0x06, 0x01, 0xF7]) :
    processPackets [] (mkPackets chunks true) =
      ⟨[0xF0, 0x7E, 0x7F, 0x06, 0x01, 0xF7],
       [[0xF0, 0x7E, 0x7F, 0x06, 0x02, 0x01, 0x02, 0x03, 0x04, 0x05,
         0x00, 0x00, 0x00, 0x00, 0xF7]], false⟩ := by
  cases chunks with
  | nil => exact absurd rfl hne
  | cons c cs =>
      cases cs with
      | nil =>
          have hc : c = [0xF0, 0x7E, 0x7F, 0x06, 0x01, 0xF7] := by
            simpa using hcat
          subst hc
          decide
      | cons c2 cs2 =>
          have hflat : ((c :: c2 :: cs2).flatten : List Nat) =
              c ++ (c2 :: cs2).flatten := List.flatten_cons
          have hlen6 : ((c :: c2 :: cs2).flatten : List Nat).length = 6 := by
            rw [hcat]; rfl
          have hclen : c.length ≤ 6 := by
            rw [hflat] at hlen6
            simp only [List.length_append] at hlen6
            omega
          have hov : ¬ (SYSEX_BUFFER_SIZE < c.length) := by
            simp only [SYSEX_BUFFER_SIZE]
            omega
          have hrest : ([] : List Nat) ++ c = c := rfl
          have hlen2 : c.length + ((c2 :: cs2).flatten).length ≤
              SYSEX_BUFFER_SIZE := by
            rw [hflat] at hlen6
            simp only [List.length_append] at hlen6
            simp only [SYSEX_BUFFER_SIZE]
            omega
          have ih2 := processPackets_continuations (c2 :: cs2) c
            (List.cons_ne_nil c2 cs2) hlen2
          have hcc : c ++ (c2 :: cs2).flatten =
              [0xF0, 0x7E, 0x7F, 0x06, 0x01, 0xF7] := by
            rw [← hflat]; exact hcat
          simp only [mkPackets, processPackets]
          simp [processPacket, hov, ih2, hcc, process_sysex,
            IDENTITY_REQUEST, identityReply]
          simp only [List.flatten_cons] at hcc
          simp [hcc]

theorem sysex_reassembly_split_invariant_witness :
    processPackets []
      (mkPackets [[0xF0, 0x7E, 0x7F], [0x06, 0x01, 0xF7]] true) =
      ⟨[0xF0, 0x7E, 0x7F, 0x06, 0x01, 0xF7],
       [[0xF0, 0x7E, 0x7F, 0x06, 0x02, 0x01, 0x02, 0x03, 0x04, 0x05,
         0x00, 0x00, 0x00, 0x00, 0xF7]], false⟩ :=
  sysex_reassembly_split_invariant [[0xF0, 0x7E, 0x7F], [0x06, 0x01, 0xF7]]
    (by decide) (by decide) (by decide)

/-- C6 counterexample: feeding a start packet and 21 three-byte
continuation packets (66 payload bytes, no end marker) overflows the
64-byte assembly buffer — the overflow is reported and no reply is sent —
but the buffer is NOT cleared: it still holds the 63 bytes accumulated
before the failing append, so the claim "the buffer is cleared" is false
on this input. -/
theorem sysex_overflow_buffer_not_cleared :
    (processPackets [] overflowPackets).overflowed = true ∧
    (processPackets [] overflowPackets).replies = [] ∧
    (processPackets [] overflowPackets).buffer ≠ [] ∧
    (processPackets [] overflowPackets).buffer.length = 63 := by decide

/-- C6 (amended): when appending an inbound SysEx packet payload would
exceed the fixed buffer capacity, the current message is abandoned: the
overflow is reported, no reply is produced, and the remaining packets of
the transfer are not processed; the buffer is NOT cleared by the overflow
itself — it keeps the bytes it held after the packet-start handling (a
failed append leaves the heapless buffer untouched), and is only cleared
by the next SysEx start packet. -/
theorem sysex_overflow_abandons_transfer (buf : List Nat) (p : Packet)
    (rest : List Packet) (hsys : p.sysex = true)
    (hover : SYSEX_BUFFER_SIZE <
      (if p.start then [] else buf).length + p.payload.length) :
    processPackets buf (p :: rest) =
      ⟨if p.start then [] else buf, [], true⟩ := by
  simp only [processPackets, processPacket, hsys, Bool.true_eq_false,
    if_false, if_pos hover]
  simp

theorem sysex_overflow_abandons_transfer_witness :
    processPackets [0, 0]
      (Packet.mk true false false (List.replicate 63 0) ::
        [Packet.mk true false true [0xF7]]) = ⟨[0, 0], [], true⟩ :=
  sysex_overflow_abandons_transfer [0, 0]
    (Packet.mk true false false (List.replicate 63 0))
    [Packet.mk true false true [0xF7]] (by decide) (by decide)

end MidiCore
